import Mathlib

/-!
Shallow embedding of the staking ledger in
`src/staking_contract/src/lib.rs` (NEAR contract, Rust).  Machine `u128`
values are `Nat` with explicit `< 2 ^ 128` bounds where overflow matters;
the `IterableMap<AccountId, u128>` of staked balances is an association
list; a NEAR host abort (failed `assert!` or checked arithmetic) rolls
back every state write of the invoking call, so a failing operation
returns an error and the caller keeps the entry state.
-/

namespace Cyphershare

/-- Participant identity, the contract's `AccountId`. -/
abbrev AccountId := String

/-- Exclusive upper bound of the `u128` amount type. -/
def U128LIMIT : Nat := 2 ^ 128

/-- State of `StakingContract` (struct at lines 9-16 of the source):
owner, per-participant staked balances, their running total, the reward
percentage (`u8`), and the re-entrancy flag. -/
structure StakingContract where
  owner_id : AccountId
  staked_balances : List (AccountId × Nat)
  total_staked_balance : Nat
  reward_rate : Nat
  is_unstaking_locked : Bool
deriving DecidableEq

/-- Lookup in the balance map; an absent participant reads as `0`,
mirroring `self.staked_balances.get(&staker).unwrap_or(&0)`. -/
def getBal : List (AccountId × Nat) → AccountId → Nat
  | [], _ => 0
  | (k, v) :: t, s => if k = s then v else getBal t s

/-- Insert-or-replace in the balance map, mirroring
`self.staked_balances.insert(staker, new_balance)`. -/
def setBal : List (AccountId × Nat) → AccountId → Nat → List (AccountId × Nat)
  | [], s, v => [(s, v)]
  | (k, w) :: t, s, v => if k = s then (s, v) :: t else (k, w) :: setBal t s v

/-- Sum of all recorded balances. -/
def sumBal : List (AccountId × Nat) → Nat
  | [] => 0
  | (_, v) :: t => v + sumBal t

/-- Constructor `new` (lines 20-28): empty ledger, zero total, default
rate 10, lock clear. -/
def StakingContract.new (owner : AccountId) : StakingContract :=
  ⟨owner, [], 0, 10, false⟩

/-- Rejection reasons.  The first six are the source's `assert!` panics in
order of the spec taxonomy; `rewardCastOverflow` is the `U256::as_u128`
abort, and the overflow/underflow constructors are the checked-arithmetic
aborts. -/
inductive Err where
  | notAuthorized
  | alreadyLocked
  | insufficientStake
  | insufficientPoolFunds
  | insufficientAvailableFunds
  | rewardCastOverflow
  | addOverflow
  | subUnderflow
deriving DecidableEq

/-- An issued transfer request: `Promise::new(to).transfer(amount)`. -/
structure Transfer where
  beneficiary : AccountId
  amount : Nat
deriving DecidableEq

/-- Reward computation of `unstake` (lines 55-56): the product and the
quotient are taken in `U256`, which is wide enough that
`amount * reward_rate` never wraps (`amount < 2 ^ 128`, `rate < 2 ^ 8`),
so plain `Nat` arithmetic is a faithful model of it; the final
`as_u128()` cast aborts (`none`) when the quotient does not fit `u128`. -/
def reward (amount rate : Nat) : Option Nat :=
  if amount * rate / 100 < U128LIMIT then some (amount * rate / 100) else none

/-- Modelled from the spec: the build profile fixing whether Rust `+` and
`-` on `u128` wrap or abort on overflow is not under `src/`; the spec
(section 7) mandates that arithmetic overflow aborts the call rather than
wrapping, and NEAR contract builds enable overflow checks.  Accordingly
every `u128` addition and subtraction below is checked: a sum reaching
`2 ^ 128`, or a difference below zero, aborts the call. -/
def u128AddOk (a b : Nat) : Prop := a + b < U128LIMIT

instance (a b : Nat) : Decidable (u128AddOk a b) := by
  unfold u128AddOk; infer_instance

/-- Method `stake` (lines 36-44): the caller's attached deposit `amount`
is added to the caller's balance and to the total.  `none` is the aborted
call (checked-addition overflow, see `u128AddOk`); the event log is
observability only and is not modelled. -/
def stake (c : StakingContract) (staker : AccountId) (amount : Nat) :
    Option StakingContract :=
  if u128AddOk (getBal c.staked_balances staker) amount ∧
      u128AddOk c.total_staked_balance amount then
    some { c with
      staked_balances :=
        setBal c.staked_balances staker (getBal c.staked_balances staker + amount),
      total_staked_balance := c.total_staked_balance + amount }
  else none

/-- Method `unstake` (lines 46-67), one branch per source step: lock
check, balance check, reward computation, `total_to_transfer` addition,
solvency check against `total_staked_balance + reward` (the total before
the pending reduction), then the balance and total decrements, lock
release and transfer request.  `account_balance` is the custodial balance
reported by the host (`env::account_balance()`).  The lock is set before
the balance check and cleared on the success path; since an abort rolls
back all writes, an error leaves the caller with the entry state. -/
def unstake (c : StakingContract) (staker : AccountId) (amount : Nat)
    (account_balance : Nat) : Except Err (StakingContract × Transfer) :=
  if c.is_unstaking_locked then Except.error Err.alreadyLocked else
  if getBal c.staked_balances staker < amount then
    Except.error Err.insufficientStake else
  match reward amount c.reward_rate with
  | none => Except.error Err.rewardCastOverflow
  | some r =>
    if ¬ u128AddOk amount r then Except.error Err.addOverflow else
    if ¬ u128AddOk c.total_staked_balance r then Except.error Err.addOverflow else
    if account_balance < c.total_staked_balance + r then
      Except.error Err.insufficientPoolFunds else
    if c.total_staked_balance < amount then Except.error Err.subUnderflow else
    Except.ok
      ({ c with
          staked_balances :=
            setBal c.staked_balances staker (getBal c.staked_balances staker - amount),
          total_staked_balance := c.total_staked_balance - amount,
          is_unstaking_locked := false },
        ⟨staker, amount + r⟩)

/-- Post-call state of a `stake` call: on abort the host state rolls back
to the entry state. -/
def stakeRun (c : StakingContract) (staker : AccountId) (amount : Nat) :
    StakingContract :=
  (stake c staker amount).getD c

/-- Post-call state of an `unstake` call: on abort the host state rolls
back to the entry state. -/
def unstakeRun (c : StakingContract) (staker : AccountId)
    (amount account_balance : Nat) : StakingContract :=
  match unstake c staker amount account_balance with
  | Except.ok p => p.1
  | Except.error _ => c

/-- Method `withdraw_funds` (lines 74-80): owner gate, then the unguarded
`u128` subtraction `account_balance - total_staked_balance` (checked, so
it aborts when the total exceeds the custodial balance), then the
availability comparison; no ledger field is written on any path. -/
def withdraw_funds (c : StakingContract) (caller : AccountId) (amount : Nat)
    (account_balance : Nat) : Except Err Transfer :=
  if caller ≠ c.owner_id then Except.error Err.notAuthorized else
  if account_balance < c.total_staked_balance then Except.error Err.subUnderflow else
  if account_balance - c.total_staked_balance < amount then
    Except.error Err.insufficientAvailableFunds else
  Except.ok ⟨c.owner_id, amount⟩

/-- One ledger-mutating call, with the host-supplied inputs it reads. -/
inductive Op where
  | stakeOp (staker : AccountId) (amount : Nat)
  | unstakeOp (staker : AccountId) (amount : Nat) (account_balance : Nat)

/-- Post-call state of one operation. -/
def execOp (c : StakingContract) : Op → StakingContract
  | Op.stakeOp s a => stakeRun c s a
  | Op.unstakeOp s a b => unstakeRun c s a b

/-- Post-call state of a sequence of operations. -/
def execOps (c : StakingContract) : List Op → StakingContract
  | [] => c
  | op :: t => execOps (execOp c op) t

/-- Invariant I1: the running total agrees with the sum of the balances. -/
def I1 (c : StakingContract) : Prop :=
  c.total_staked_balance = sumBal c.staked_balances

/-! Helper lemmas shared by the claim theorems. -/

/-- Replacing the first entry of a key trades its old value for the new
one inside the sum of balances. -/
lemma sumBal_setBal (l : List (AccountId × Nat)) (s : AccountId) (v : Nat) :
    sumBal (setBal l s v) + getBal l s = sumBal l + v := by
  induction l with
  | nil => simp [setBal, sumBal, getBal]
  | cons hd t ih =>
    obtain ⟨k, w⟩ := hd
    by_cases hk : k = s
    · simp [setBal, sumBal, getBal, hk]
      omega
    · simp [setBal, sumBal, getBal, hk]
      omega

/-- Inversion of a successful `unstake`: the guards passed and the result
state is the entry state with the caller's balance and the total reduced
by the amount and the lock clear. -/
lemma unstake_ok_inv (c : StakingContract) (s : AccountId) (a b : Nat)
    (c2 : StakingContract) (t : Transfer)
    (h : unstake c s a b = Except.ok (c2, t)) :
    a ≤ getBal c.staked_balances s ∧ a ≤ c.total_staked_balance ∧
    c2 = { c with
      staked_balances := setBal c.staked_balances s (getBal c.staked_balances s - a),
      total_staked_balance := c.total_staked_balance - a,
      is_unstaking_locked := false } := by
  unfold unstake at h
  repeat' split at h
  all_goals try cases h
  refine ⟨by omega, by omega, ?_⟩
  rfl

/-- `stake` preserves I1 whether it commits or aborts. -/
lemma I1_stakeRun (c : StakingContract) (s : AccountId) (a : Nat)
    (h : I1 c) : I1 (stakeRun c s a) := by
  unfold stakeRun stake
  by_cases hc : u128AddOk (getBal c.staked_balances s) a ∧
      u128AddOk c.total_staked_balance a
  · have key := sumBal_setBal c.staked_balances s (getBal c.staked_balances s + a)
    unfold I1 at h ⊢
    simp [hc]
    omega
  · simpa [hc] using h

/-- `unstake` preserves I1 whether it commits or aborts. -/
lemma I1_unstakeRun (c : StakingContract) (s : AccountId) (a b : Nat)
    (h : I1 c) : I1 (unstakeRun c s a b) := by
  unfold unstakeRun
  split
  · next p heq =>
      obtain ⟨c2, t⟩ := p
      obtain ⟨hbal, hub, hc2⟩ := unstake_ok_inv c s a b c2 t heq
      subst hc2
      have key := sumBal_setBal c.staked_balances s (getBal c.staked_balances s - a)
      unfold I1 at h ⊢
      simp
      omega
  · exact h

/-- Every operation preserves I1, so every run from an I1 state ends in an
I1 state. -/
lemma I1_execOps (ops : List Op) :
    ∀ c : StakingContract, I1 c → I1 (execOps c ops) := by
  induction ops with
  | nil => intro c h; exact h
  | cons op t ih =>
    intro c h
    unfold execOps
    apply ih
    cases op with
    | stakeOp s a => exact I1_stakeRun c s a h
    | unstakeOp s a b => exact I1_unstakeRun c s a b h

/-! Claim theorems. -/

/-- C1 (counterexample): the claim quantifies over the full `u128` range
of the principal and every rate in 0-255, but at principal `2 ^ 128 - 1`
and rate 255 the quotient no longer fits `u128`, so the `as_u128` cast
aborts the call instead of returning `floor(principal * rate / 100)`. -/
theorem c1_full_range_counterexample :
    (2 ^ 128 - 1 < U128LIMIT ∧ (255 : Nat) < 2 ^ 8) ∧
    reward (2 ^ 128 - 1) 255 = none ∧
    reward (2 ^ 128 - 1) 255 ≠ some ((2 ^ 128 - 1) * 255 / 100) := by
  have hge : ¬ ((2 ^ 128 - 1) * 255 / 100 < U128LIMIT) := by
    norm_num [U128LIMIT]
  have hnone : reward (2 ^ 128 - 1) 255 = none := by
    unfold reward
    rw [if_neg hge]
  refine ⟨⟨by norm_num [U128LIMIT], by norm_num⟩, hnone, ?_⟩
  rw [hnone]
  simp

/-- C1 (amended): whenever the quotient fits the amount type — in
particular for every rate up to 100 over the whole `u128` principal
range — the reward is exactly `floor(principal * rate / 100)`, and the
intermediate product stays far below the `U256` bound, so it never
wraps. -/
theorem c1_reward_wide_exact (p r : Nat) (hp : p < U128LIMIT) (hr : r < 2 ^ 8)
    (hfit : p * r / 100 < U128LIMIT) :
    p * r < 2 ^ 256 ∧ reward p r = some (p * r / 100) := by
  constructor
  · have h1 : p * r ≤ (2 ^ 128 - 1) * (2 ^ 8 - 1) := by
      apply Nat.mul_le_mul
      · unfold U128LIMIT at hp
        omega
      · omega
    calc p * r ≤ (2 ^ 128 - 1) * (2 ^ 8 - 1) := h1
      _ < 2 ^ 256 := by norm_num
  · unfold reward
    rw [if_pos hfit]

/-- C1 (witness): the spec example, principal 10_000_000 at rate 15
yields exactly 1_500_000. -/
theorem c1_reward_wide_exact_witness :
    10000000 * 15 < 2 ^ 256 ∧ reward 10000000 15 = some 1500000 := by
  have h := c1_reward_wide_exact 10000000 15 (by norm_num [U128LIMIT])
    (by norm_num) (by norm_num [U128LIMIT])
  refine ⟨h.1, ?_⟩
  have h2 := h.2
  norm_num at h2
  exact h2

/-- C2: starting from the freshly constructed contract, every sequence of
stake and unstake calls keeps `total_staked_balance` equal to the sum of
the per-participant balances at every point between operations. -/
theorem c2_total_matches_sum (owner : AccountId) (ops : List Op) :
    I1 (execOps (StakingContract.new owner) ops) := by
  apply I1_execOps
  rfl

/-- C4: an unstake of more than the caller's recorded balance (zero for a
participant who never staked) fails with `InsufficientStake` and the
post-call state is exactly the entry state. -/
theorem c4_insufficient_stake_atomic (c : StakingContract) (s : AccountId)
    (a b : Nat) (hlock : c.is_unstaking_locked = false)
    (hbal : getBal c.staked_balances s < a) :
    unstake c s a b = Except.error Err.insufficientStake ∧
    unstakeRun c s a b = c := by
  have h : unstake c s a b = Except.error Err.insufficientStake := by
    unfold unstake
    simp [hlock, hbal]
  refine ⟨h, ?_⟩
  unfold unstakeRun
  rw [h]

/-- C4 (witness): a participant who never staked cannot unstake 1 unit. -/
theorem c4_insufficient_stake_atomic_witness :
    unstake (StakingContract.new "owner") "bob" 1 0 =
      Except.error Err.insufficientStake ∧
    unstakeRun (StakingContract.new "owner") "bob" 1 0 =
      StakingContract.new "owner" :=
  c4_insufficient_stake_atomic (StakingContract.new "owner") "bob" 1 0 rfl
    (by decide)

/-- C5: the lock is clear at rest (in the freshly constructed contract),
and an unstake entered with the lock clear leaves the lock clear on every
exit path — the success path resets it and every failure path rolls the
call back to the entry state. -/
theorem c5_lock_clear (o : AccountId) (c : StakingContract) (s : AccountId)
    (a b : Nat) (h : c.is_unstaking_locked = false) :
    (StakingContract.new o).is_unstaking_locked = false ∧
    (unstakeRun c s a b).is_unstaking_locked = false := by
  refine ⟨rfl, ?_⟩
  unfold unstakeRun
  split
  · next p heq =>
      obtain ⟨c2, t⟩ := p
      obtain ⟨-, -, hc2⟩ := unstake_ok_inv c s a b c2 t heq
      rw [hc2]
  · exact h

/-- C5 (witness): a concrete failing unstake from the fresh contract
leaves the lock clear. -/
theorem c5_lock_clear_witness :
    (StakingContract.new "o").is_unstaking_locked = false ∧
    (unstakeRun (StakingContract.new "o") "bob" 1 0).is_unstaking_locked = false :=
  c5_lock_clear "o" (StakingContract.new "o") "bob" 1 0 rfl

/-- C7: a stake call commits exactly the unwrapped sums — the caller's
balance and the total both grow by the attached amount — precisely when
both sums fit the amount type, and aborts (committing nothing, in
particular never a wrapped sum) precisely when either sum overflows. -/
theorem c7_stake_checked (c : StakingContract) (s : AccountId) (a : Nat) :
    (stake c s a = some { c with
        staked_balances :=
          setBal c.staked_balances s (getBal c.staked_balances s + a),
        total_staked_balance := c.total_staked_balance + a } ↔
      (getBal c.staked_balances s + a < U128LIMIT ∧
        c.total_staked_balance + a < U128LIMIT)) ∧
    (stake c s a = none ↔
      ¬ (getBal c.staked_balances s + a < U128LIMIT ∧
        c.total_staked_balance + a < U128LIMIT)) := by
  unfold stake u128AddOk
  by_cases hc : getBal c.staked_balances s + a < U128LIMIT ∧
      c.total_staked_balance + a < U128LIMIT
  · simp [hc]
  · simp [hc]

/-- C9: the reward is monotone non-decreasing in principal and rate
(whenever the larger call is defined, the smaller one is defined and not
above it), and a zero rate always yields a zero reward. -/
theorem c9_reward_monotone (p1 p2 r1 r2 n w2 : Nat)
    (hp : p1 ≤ p2) (hr : r1 ≤ r2) (h2 : reward p2 r2 = some w2) :
    (∃ w1, reward p1 r1 = some w1 ∧ w1 ≤ w2) ∧ reward n 0 = some 0 := by
  have hdiv : p1 * r1 / 100 ≤ p2 * r2 / 100 :=
    Nat.div_le_div_right (Nat.mul_le_mul hp hr)
  have hzero : reward n 0 = some 0 := by
    unfold reward
    norm_num [U128LIMIT]
  unfold reward at h2
  by_cases hfit2 : p2 * r2 / 100 < U128LIMIT
  · rw [if_pos hfit2] at h2
    injection h2 with hw2
    have hfit1 : p1 * r1 / 100 < U128LIMIT := lt_of_le_of_lt hdiv hfit2
    refine ⟨⟨p1 * r1 / 100, ?_, by omega⟩, hzero⟩
    unfold reward
    rw [if_pos hfit1]
  · rw [if_neg hfit2] at h2
    cases h2

/-- C9 (witness): concrete monotone instance 3 * 10 percent against
5 * 20 percent, and a zero rate at principal 7. -/
theorem c9_reward_monotone_witness :
    (∃ w1, reward 3 10 = some w1 ∧ w1 ≤ 1) ∧ reward 7 0 = some 0 :=
  c9_reward_monotone 3 5 10 20 7 1 (by norm_num) (by norm_num) (by decide)

/-- C10: whenever the recorded total exceeds the custodial balance the
owner's withdrawal aborts on the unguarded `u128` subtraction, for every
requested amount — so the `InsufficientAvailableFunds` branch is never
the outcome there. -/
theorem c10_withdraw_underflow (c : StakingContract) (a b : Nat)
    (h : b < c.total_staked_balance) :
    withdraw_funds c c.owner_id a b = Except.error Err.subUnderflow ∧
    withdraw_funds c c.owner_id a b ≠
      Except.error Err.insufficientAvailableFunds := by
  have heq : withdraw_funds c c.owner_id a b = Except.error Err.subUnderflow := by
    unfold withdraw_funds
    simp [h]
  refine ⟨heq, ?_⟩
  rw [heq]
  simp

/-- C10 (witness): total 5 against custodial balance 3 aborts the
withdrawal of 1. -/
theorem c10_withdraw_underflow_witness :
    withdraw_funds (StakingContract.mk "o" [] 5 10 false) "o" 1 3 =
      Except.error Err.subUnderflow ∧
    withdraw_funds (StakingContract.mk "o" [] 5 10 false) "o" 1 3 ≠
      Except.error Err.insufficientAvailableFunds :=
  c10_withdraw_underflow (StakingContract.mk "o" [] 5 10 false) 1 3 (by norm_num)

/-- C3 (counterexample): the claim predicts commit once
`custodial_balance >= (total_staked - amount) + reward`, but the source
compares against the total before the pending reduction.  Here the lock
and stake checks pass, the claim's inequality holds (`5 >= 0 + 0` at rate
0), yet the call fails with `InsufficientPoolFunds` because `5 < 10`. -/
theorem c3_solvency_counterexample :
    unstake (StakingContract.mk "owner" [("alice", 10)] 10 0 false) "alice" 10 5 =
      Except.error Err.insufficientPoolFunds ∧
    (StakingContract.mk "owner" [("alice", 10)] 10 0 false).is_unstaking_locked
      = false ∧
    10 ≤ getBal [("alice", 10)] "alice" ∧
    10 - 10 + 10 * 0 / 100 ≤ 5 := by
  refine ⟨rfl, rfl, by decide, by norm_num⟩

/-- C3 (amended): for an unstake past the lock and stake checks whose
arithmetic fits the amount type, the call fails with
`InsufficientPoolFunds` exactly when the custodial balance is below
`total_staked + reward` with the total taken before the pending
reduction; otherwise it proceeds. -/
theorem c3_solvency_pretotal (c : StakingContract) (s : AccountId) (a b : Nat)
    (hlock : c.is_unstaking_locked = false)
    (hbal : a ≤ getBal c.staked_balances s)
    (hrfit : a * c.reward_rate / 100 < U128LIMIT)
    (htt : a + a * c.reward_rate / 100 < U128LIMIT)
    (hsr : c.total_staked_balance + a * c.reward_rate / 100 < U128LIMIT) :
    unstake c s a b = Except.error Err.insufficientPoolFunds ↔
      b < c.total_staked_balance + a * c.reward_rate / 100 := by
  have hrw : reward a c.reward_rate = some (a * c.reward_rate / 100) := by
    unfold reward
    rw [if_pos hrfit]
  by_cases hb : b < c.total_staked_balance + a * c.reward_rate / 100
  · simp only [hb, iff_true]
    unfold unstake
    simp [hlock, hrw, u128AddOk, htt, hsr, Nat.not_lt.mpr hbal, hb]
  · simp only [hb, iff_false]
    unfold unstake
    simp only [hlock, Bool.false_eq_true, if_false, Nat.not_lt.mpr hbal,
      if_false, hrw]
    rw [if_neg (by simpa [u128AddOk] using htt),
      if_neg (by simpa [u128AddOk] using hsr), if_neg hb]
    split
    · simp
    · simp

/-- C3 (witness): at rate 10, balance and total 10, custodial balance 5
is below `10 + 1`, so the call fails with `InsufficientPoolFunds`. -/
theorem c3_solvency_pretotal_witness :
    unstake (StakingContract.mk "o" [("alice", 10)] 10 10 false) "alice" 10 5 =
      Except.error Err.insufficientPoolFunds :=
  (c3_solvency_pretotal (StakingContract.mk "o" [("alice", 10)] 10 10 false)
    "alice" 10 5 rfl (by decide) (by decide) (by decide) (by decide)).mpr
    (by decide)

/-- C6: with the lock held at entry the same call fails with
`AlreadyLocked` and mutates nothing; with the lock clear and every other
precondition holding (stake covers the amount, arithmetic fits, custodial
balance covers total plus reward) the call commits. -/
theorem c6_lock_gate (c : StakingContract) (s : AccountId) (a b : Nat)
    (hlock : c.is_unstaking_locked = false)
    (hbal : a ≤ getBal c.staked_balances s)
    (hrfit : a * c.reward_rate / 100 < U128LIMIT)
    (htt : a + a * c.reward_rate / 100 < U128LIMIT)
    (hsr : c.total_staked_balance + a * c.reward_rate / 100 < U128LIMIT)
    (hub : a ≤ c.total_staked_balance)
    (hsolv : c.total_staked_balance + a * c.reward_rate / 100 ≤ b) :
    unstake { c with is_unstaking_locked := true } s a b =
      Except.error Err.alreadyLocked ∧
    unstakeRun { c with is_unstaking_locked := true } s a b =
      { c with is_unstaking_locked := true } ∧
    (∃ c2 t, unstake c s a b = Except.ok (c2, t)) := by
  have hlocked : unstake { c with is_unstaking_locked := true } s a b =
      Except.error Err.alreadyLocked := by
    unfold unstake
    simp
  refine ⟨hlocked, by unfold unstakeRun; rw [hlocked], ?_⟩
  have hrw : reward a c.reward_rate = some (a * c.reward_rate / 100) := by
    unfold reward
    rw [if_pos hrfit]
  unfold unstake
  simp only [hlock, Bool.false_eq_true, if_false, Nat.not_lt.mpr hbal, hrw]
  rw [if_neg (by simpa [u128AddOk] using htt),
    if_neg (by simpa [u128AddOk] using hsr),
    if_neg (Nat.not_lt.mpr hsolv), if_neg (Nat.not_lt.mpr hub)]
  exact ⟨_, _, rfl⟩

/-- C6 (witness): the same admissible call rejected with the lock held
and committed with the lock clear. -/
theorem c6_lock_gate_witness :
    unstake { StakingContract.mk "o" [("alice", 10)] 10 10 false with
        is_unstaking_locked := true } "alice" 10 11 =
      Except.error Err.alreadyLocked ∧
    unstakeRun { StakingContract.mk "o" [("alice", 10)] 10 10 false with
        is_unstaking_locked := true } "alice" 10 11 =
      { StakingContract.mk "o" [("alice", 10)] 10 10 false with
        is_unstaking_locked := true } ∧
    (∃ c2 t, unstake (StakingContract.mk "o" [("alice", 10)] 10 10 false)
      "alice" 10 11 = Except.ok (c2, t)) :=
  c6_lock_gate (StakingContract.mk "o" [("alice", 10)] 10 10 false) "alice"
    10 11 rfl (by decide) (by decide) (by decide) (by decide) (by decide)
    (by decide)

/-- C8: under the precondition that the total staked does not exceed the
custodial balance, the owner's withdrawal fails with
`InsufficientAvailableFunds` exactly when the request exceeds
`custodial_balance - total_staked`, and otherwise commits to exactly one
transfer of the requested amount to the owner; no ledger field is
written on either path. -/
theorem c8_withdraw_gate (c : StakingContract) (a b : Nat)
    (hpre : c.total_staked_balance ≤ b) :
    (withdraw_funds c c.owner_id a b =
        Except.error Err.insufficientAvailableFunds ↔
      b - c.total_staked_balance < a) ∧
    (withdraw_funds c c.owner_id a b = Except.ok ⟨c.owner_id, a⟩ ↔
      a ≤ b - c.total_staked_balance) := by
  unfold withdraw_funds
  rw [if_neg (by simp), if_neg (Nat.not_lt.mpr hpre)]
  by_cases hc : b - c.total_staked_balance < a
  · rw [if_pos hc]
    constructor
    · simp [hc]
    · constructor
      · intro hcontra
        cases hcontra
      · omega
  · rw [if_neg hc]
    constructor
    · constructor
      · intro hcontra
        cases hcontra
      · omega
    · simp
      omega

/-- C8 (witness): total 10, custodial 15 — withdrawing 6 is rejected as
unavailable, withdrawing 3 commits a 3-unit transfer to the owner. -/
theorem c8_withdraw_gate_witness :
    withdraw_funds (StakingContract.mk "o" [] 10 10 false) "o" 6 15 =
      Except.error Err.insufficientAvailableFunds ∧
    withdraw_funds (StakingContract.mk "o" [] 10 10 false) "o" 3 15 =
      Except.ok ⟨"o", 3⟩ :=
  ⟨(c8_withdraw_gate (StakingContract.mk "o" [] 10 10 false) 6 15
      (by norm_num)).1.mpr (by norm_num),
    (c8_withdraw_gate (StakingContract.mk "o" [] 10 10 false) 3 15
      (by norm_num)).2.mpr (by norm_num)⟩

end Cyphershare
